import Mathlib

/-!
Shallow embedding of the lenticular-effect generator's core numeric logic.

Sources embedded here:
* `src/src/components/GifGenerator.vue` — offline frame baker
  (`generateGif`, `renderLenticularEffect`, `preloadImages`);
* `src/src/components/StartScreen.vue` — interactive compositor
  (`getFragmentShader`, `resizeImage`, `smoothTilt`, `loadTextures`).

JavaScript / GLSL floating-point numbers are modelled as rationals (ℚ);
`Math.floor` / `floor` as `Int.floor`, `Math.ceil` / `ceil` as `Int.ceil`,
GLSL `fract s` as `s - ⌊s⌋`.  The per-strip sinusoidal perturbation
(`Math.sin(strip * 0.1) * 0.08` in the canvas renderer,
`sin(stripIndex * 0.3) * 0.2` in the shader) is transcendental, so the
mapping functions take the value of that term as an explicit parameter
`osc`; the amplitude bounds `|osc| ≤ 0.08` (canvas) and `|osc| ≤ 0.2`
(shader) are carried as hypotheses where a claim needs them.
-/

namespace Lenticular

/-- Result of the per-strip mapping: primary image index, secondary image
index, and blend weight (`StripSample` in the spec's data model). -/
structure StripSample where
  idx1 : ℤ
  idx2 : ℤ
  weight : ℚ
deriving DecidableEq, Repr

/-- Embeds the per-strip mapping of `renderLenticularEffect`
(`GifGenerator.vue`, lines 321–334):
`stripTilt = Math.max(-1, Math.min(1, tiltValue + stripVariation))`,
`stripImageSelector = (stripTilt + 1) * 0.5 * (images.length - 1)`,
`stripIdx1 = Math.max(0, Math.min(Math.floor(sel), images.length - 1))`,
`stripIdx2 = Math.max(0, Math.min(Math.ceil(sel), images.length - 1))`,
`stripMix = stripImageSelector - stripIdx1`.
`osc` stands for `Math.sin(strip * 0.1) * 0.08`. -/
def mapStripCanvas (tiltValue osc : ℚ) (n : ℕ) : StripSample :=
  let stripTilt : ℚ := max (-1) (min 1 (tiltValue + osc))
  let stripImageSelector : ℚ := (stripTilt + 1) * (1/2) * ((n : ℚ) - 1)
  let stripIdx1 : ℤ := max 0 (min ⌊stripImageSelector⌋ ((n : ℤ) - 1))
  let stripIdx2 : ℤ := max 0 (min ⌈stripImageSelector⌉ ((n : ℤ) - 1))
  ⟨stripIdx1, stripIdx2, stripImageSelector - (stripIdx1 : ℚ)⟩

/-- Embeds the per-fragment mapping of `getFragmentShader`
(`StartScreen.vue`, lines 244–258):
`tiltFactor = tilt * 1.5`, `viewAngle = tiltFactor + sin(stripIndex*0.3)*0.2`,
`imageSelector = (viewAngle + 1.0) * 0.5 * float(imageCount - 1)`,
`imageIndex1 = clamp(int(floor(sel)), 0, imageCount - 1)`,
`imageIndex2 = clamp(int(ceil(sel)), 0, imageCount - 1)`,
`mixFactor = fract(sel)`.
`osc` stands for `sin(stripIndex * 0.3) * 0.2`; GLSL
`clamp(x, lo, hi) = min(max(x, lo), hi)` and `fract s = s - ⌊s⌋`. -/
def mapStripShader (tilt osc : ℚ) (imageCount : ℕ) : StripSample :=
  let tiltFactor : ℚ := tilt * (3/2)
  let viewAngle : ℚ := tiltFactor + osc
  let imageSelector : ℚ := (viewAngle + 1) * (1/2) * ((imageCount : ℚ) - 1)
  let imageIndex1 : ℤ := min (max ⌊imageSelector⌋ 0) ((imageCount : ℤ) - 1)
  let imageIndex2 : ℤ := min (max ⌈imageSelector⌉ 0) ((imageCount : ℤ) - 1)
  ⟨imageIndex1, imageIndex2, imageSelector - ⌊imageSelector⌋⟩

/-- The canvas renderer's continuous image selector alone
(`(stripTilt + 1) * 0.5 * (images.length - 1)` after the tilt clamp). -/
def stripSelectorCanvas (tiltValue osc : ℚ) (n : ℕ) : ℚ :=
  (max (-1) (min 1 (tiltValue + osc)) + 1) * (1/2) * ((n : ℚ) - 1)

/-- The shader's continuous image selector alone
(`(tilt * 1.5 + osc + 1.0) * 0.5 * float(imageCount - 1)`). -/
def stripSelectorShader (tilt osc : ℚ) (imageCount : ℕ) : ℚ :=
  (tilt * (3/2) + osc + 1) * (1/2) * ((imageCount : ℚ) - 1)

/-- Modelled from the spec's words (section 4.2, steps 3–4): given the
perturbed/amplified tilt `p`, `selector = (p + 1) * 0.5 * (imageCount - 1)`,
`idx1 = floor(selector)`, `idx2 = ceil(selector)`,
`weight = selector - idx1`, both indices clamped to `[0, imageCount-1]`.
Used only to compare the spec's formula with the two source mappings. -/
def mapColumnSpec (p : ℚ) (imageCount : ℕ) : StripSample :=
  let selector : ℚ := (p + 1) * (1/2) * ((imageCount : ℚ) - 1)
  let idx1 : ℤ := max 0 (min ⌊selector⌋ ((imageCount : ℤ) - 1))
  let idx2 : ℤ := max 0 (min ⌈selector⌉ ((imageCount : ℤ) - 1))
  ⟨idx1, idx2, selector - ⌊selector⌋⟩

theorem mapStripCanvas_idx1 (t o : ℚ) (n : ℕ) :
    (mapStripCanvas t o n).idx1 =
      max 0 (min ⌊stripSelectorCanvas t o n⌋ ((n : ℤ) - 1)) := rfl

theorem mapStripCanvas_idx2 (t o : ℚ) (n : ℕ) :
    (mapStripCanvas t o n).idx2 =
      max 0 (min ⌈stripSelectorCanvas t o n⌉ ((n : ℤ) - 1)) := rfl

theorem mapStripCanvas_weight (t o : ℚ) (n : ℕ) :
    (mapStripCanvas t o n).weight =
      stripSelectorCanvas t o n - ((mapStripCanvas t o n).idx1 : ℚ) := rfl

theorem mapStripShader_idx1 (t o : ℚ) (n : ℕ) :
    (mapStripShader t o n).idx1 =
      min (max ⌊stripSelectorShader t o n⌋ 0) ((n : ℤ) - 1) := by
  unfold mapStripShader stripSelectorShader
  norm_num [mul_comm]

theorem mapStripShader_idx2 (t o : ℚ) (n : ℕ) :
    (mapStripShader t o n).idx2 =
      min (max ⌈stripSelectorShader t o n⌉ 0) ((n : ℤ) - 1) := by
  unfold mapStripShader stripSelectorShader
  norm_num [mul_comm]

theorem mapStripShader_weight (t o : ℚ) (n : ℕ) :
    (mapStripShader t o n).weight =
      stripSelectorShader t o n - (⌊stripSelectorShader t o n⌋ : ℚ) := by
  unfold mapStripShader stripSelectorShader
  norm_num [mul_comm]

theorem selectorCanvas_bounds (tilt osc : ℚ) (n : ℕ) (hn : 1 ≤ n) :
    0 ≤ stripSelectorCanvas tilt osc n ∧
      stripSelectorCanvas tilt osc n ≤ (n : ℚ) - 1 := by
  unfold stripSelectorCanvas
  have h1 : (-1 : ℚ) ≤ max (-1) (min 1 (tilt + osc)) := le_max_left _ _
  have h2 : max (-1) (min 1 (tilt + osc)) ≤ 1 :=
    max_le (by norm_num) (min_le_left _ _)
  have hn1 : (1 : ℚ) ≤ (n : ℚ) := by exact_mod_cast hn
  constructor
  · nlinarith
  · nlinarith

theorem floor_selector_range (s : ℚ) (n : ℕ) (h0 : 0 ≤ s)
    (h1 : s ≤ (n : ℚ) - 1) : 0 ≤ ⌊s⌋ ∧ ⌊s⌋ ≤ (n : ℤ) - 1 := by
  refine ⟨Int.floor_nonneg.mpr h0, ?_⟩
  have hcast : ((n : ℚ) - 1) = (((n : ℤ) - 1 : ℤ) : ℚ) := by push_cast; ring
  have := Int.floor_mono h1
  rwa [hcast, Int.floor_intCast] at this

theorem ceil_selector_range (s : ℚ) (n : ℕ) (h0 : 0 ≤ s)
    (h1 : s ≤ (n : ℚ) - 1) : 0 ≤ ⌈s⌉ ∧ ⌈s⌉ ≤ (n : ℤ) - 1 := by
  constructor
  · exact le_trans (Int.floor_nonneg.mpr h0) (Int.floor_le_ceil s)
  · have hcast : ((n : ℚ) - 1) = (((n : ℤ) - 1 : ℤ) : ℚ) := by push_cast; ring
    have := Int.ceil_mono h1
    rwa [hcast, Int.ceil_intCast] at this

/-- C1: for every tilt in [-1,1] and image count in [2,5], the per-strip
mapping — in both its realizations, the canvas renderer of
`renderLenticularEffect` and the fragment shader of `getFragmentShader` —
returns a primary index `idx1` and a secondary index `idx2` within
`[0, imageCount-1]` and a blend weight within `[0, 1]`.  `oscC` and `oscS`
are the per-strip sinusoidal perturbation values, bounded by their
amplitudes 0.08 and 0.2. -/
theorem mapStrip_indices_weight_in_range (tilt oscC oscS : ℚ) (n : ℕ)
    (htl : -1 ≤ tilt) (htu : tilt ≤ 1) (hn2 : 2 ≤ n) (hn5 : n ≤ 5)
    (hoC : |oscC| ≤ 2/25) (hoS : |oscS| ≤ 1/5) :
    (0 ≤ (mapStripCanvas tilt oscC n).idx1 ∧
       (mapStripCanvas tilt oscC n).idx1 ≤ (n : ℤ) - 1 ∧
     0 ≤ (mapStripCanvas tilt oscC n).idx2 ∧
       (mapStripCanvas tilt oscC n).idx2 ≤ (n : ℤ) - 1 ∧
     0 ≤ (mapStripCanvas tilt oscC n).weight ∧
       (mapStripCanvas tilt oscC n).weight ≤ 1) ∧
    (0 ≤ (mapStripShader tilt oscS n).idx1 ∧
       (mapStripShader tilt oscS n).idx1 ≤ (n : ℤ) - 1 ∧
     0 ≤ (mapStripShader tilt oscS n).idx2 ∧
       (mapStripShader tilt oscS n).idx2 ≤ (n : ℤ) - 1 ∧
     0 ≤ (mapStripShader tilt oscS n).weight ∧
       (mapStripShader tilt oscS n).weight ≤ 1) := by
  have hn1 : 1 ≤ n := le_trans (by norm_num) hn2
  have hnZ : (0 : ℤ) ≤ (n : ℤ) - 1 := by
    have : (1 : ℤ) ≤ (n : ℤ) := by exact_mod_cast hn1
    omega
  obtain ⟨hs0, hs1⟩ := selectorCanvas_bounds tilt oscC n hn1
  obtain ⟨hf0, hf1⟩ := floor_selector_range _ n hs0 hs1
  have hidx1 : (mapStripCanvas tilt oscC n).idx1 = ⌊stripSelectorCanvas tilt oscC n⌋ := by
    rw [mapStripCanvas_idx1]; omega
  refine ⟨⟨?_, ?_, ?_, ?_, ?_, ?_⟩, ⟨?_, ?_, ?_, ?_, ?_, ?_⟩⟩
  · rw [hidx1]; exact hf0
  · rw [hidx1]; exact hf1
  · rw [mapStripCanvas_idx2]; omega
  · rw [mapStripCanvas_idx2]; omega
  · rw [mapStripCanvas_weight, hidx1]
    exact sub_nonneg.mpr (Int.floor_le _)
  · rw [mapStripCanvas_weight, hidx1]
    have := Int.sub_one_lt_floor (stripSelectorCanvas tilt oscC n)
    linarith
  · rw [mapStripShader_idx1]; omega
  · rw [mapStripShader_idx1]; omega
  · rw [mapStripShader_idx2]; omega
  · rw [mapStripShader_idx2]; omega
  · rw [mapStripShader_weight]
    exact sub_nonneg.mpr (Int.floor_le _)
  · rw [mapStripShader_weight]
    have := Int.sub_one_lt_floor (stripSelectorShader tilt oscS n)
    linarith

/-- Witness for C1 at tilt = 1/2, oscC = 1/50, oscS = 1/10, n = 3. -/
theorem mapStrip_indices_weight_in_range_witness :
    (-1 ≤ (1/2 : ℚ) ∧ (1/2 : ℚ) ≤ 1 ∧ 2 ≤ 3 ∧ 3 ≤ 5 ∧
      |(1/50 : ℚ)| ≤ 2/25 ∧ |(1/10 : ℚ)| ≤ 1/5) ∧
    (0 ≤ (mapStripCanvas (1/2) (1/50) 3).idx1 ∧
       (mapStripCanvas (1/2) (1/50) 3).idx1 ≤ (3 : ℤ) - 1 ∧
     0 ≤ (mapStripCanvas (1/2) (1/50) 3).idx2 ∧
       (mapStripCanvas (1/2) (1/50) 3).idx2 ≤ (3 : ℤ) - 1 ∧
     0 ≤ (mapStripCanvas (1/2) (1/50) 3).weight ∧
       (mapStripCanvas (1/2) (1/50) 3).weight ≤ 1) ∧
    (0 ≤ (mapStripShader (1/2) (1/10) 3).idx1 ∧
       (mapStripShader (1/2) (1/10) 3).idx1 ≤ (3 : ℤ) - 1 ∧
     0 ≤ (mapStripShader (1/2) (1/10) 3).idx2 ∧
       (mapStripShader (1/2) (1/10) 3).idx2 ≤ (3 : ℤ) - 1 ∧
     0 ≤ (mapStripShader (1/2) (1/10) 3).weight ∧
       (mapStripShader (1/2) (1/10) 3).weight ≤ 1) :=
  ⟨by norm_num [abs_le],
   mapStrip_indices_weight_in_range (1/2) (1/50) (1/10) 3
     (by norm_num) (by norm_num) (by norm_num) (by norm_num)
     (by norm_num [abs_le]) (by norm_num [abs_le])⟩

theorem stripSampleEqOfFields {a b : StripSample} (h1 : a.idx1 = b.idx1)
    (h2 : a.idx2 = b.idx2) (h3 : a.weight = b.weight) : a = b := by
  cases a; cases b; simp_all

/-- C7: holding the strip perturbation and the image count fixed, the
continuous image selector is monotonically non-decreasing in tilt, in both
the canvas renderer and the fragment shader. -/
theorem stripSelector_monotone_in_tilt (osc t1 t2 : ℚ) (n : ℕ)
    (h12 : t1 ≤ t2) (hn : 2 ≤ n) :
    stripSelectorCanvas t1 osc n ≤ stripSelectorCanvas t2 osc n ∧
      stripSelectorShader t1 osc n ≤ stripSelectorShader t2 osc n := by
  have hn1 : (2 : ℚ) ≤ (n : ℚ) := by exact_mod_cast hn
  have hm : (0 : ℚ) ≤ (n : ℚ) - 1 := by linarith
  constructor
  · unfold stripSelectorCanvas
    have hc : max (-1) (min 1 (t1 + osc)) ≤ max (-1) (min 1 (t2 + osc)) :=
      max_le_max le_rfl (min_le_min le_rfl (by linarith))
    nlinarith
  · unfold stripSelectorShader
    nlinarith

/-- Witness for C7 at osc = 1/10, t1 = -1/2, t2 = 1/2, n = 4. -/
theorem stripSelector_monotone_in_tilt_witness :
    ((-1/2 : ℚ) ≤ 1/2 ∧ 2 ≤ 4) ∧
    (stripSelectorCanvas (-1/2) (1/10) 4 ≤ stripSelectorCanvas (1/2) (1/10) 4 ∧
      stripSelectorShader (-1/2) (1/10) 4 ≤ stripSelectorShader (1/2) (1/10) 4) :=
  ⟨by norm_num,
   stripSelector_monotone_in_tilt (1/10) (-1/2) (1/2) 4 (by norm_num) (by norm_num)⟩

theorem mapColumnSpec_idx1 (p : ℚ) (n : ℕ) :
    (mapColumnSpec p n).idx1 =
      max 0 (min ⌊(p + 1) * (1/2) * ((n : ℚ) - 1)⌋ ((n : ℤ) - 1)) := rfl

theorem mapColumnSpec_idx2 (p : ℚ) (n : ℕ) :
    (mapColumnSpec p n).idx2 =
      max 0 (min ⌈(p + 1) * (1/2) * ((n : ℚ) - 1)⌉ ((n : ℤ) - 1)) := rfl

theorem mapColumnSpec_weight (p : ℚ) (n : ℕ) :
    (mapColumnSpec p n).weight =
      (p + 1) * (1/2) * ((n : ℚ) - 1) - (⌊(p + 1) * (1/2) * ((n : ℚ) - 1)⌋ : ℚ) := rfl

/-- C2: both source realizations of the per-strip mapping compute exactly
the spec's formula `(p + 1) * 0.5 * (imageCount - 1)` with
`idx1 = floor`, `idx2 = ceil` (clamped to `[0, imageCount-1]`) and
`weight = selector - floor(selector)`, where the perturbed/amplified tilt
`p` is `tilt * 1.5 + osc` for the shader (gain 1.5, perturbation added
after amplification) and `clamp(tilt + osc, -1, 1)` for the canvas
renderer (gain 1, perturbed tilt clamped to [-1,1]).  In particular the
canvas weight `selector - clampedIdx1` coincides with
`selector - floor(selector)` because its selector always lies in
`[0, imageCount-1]`. -/
theorem mapStrip_eq_mapColumnSpec (tilt osc : ℚ) (n : ℕ) (hn : 2 ≤ n) :
    mapStripShader tilt osc n = mapColumnSpec (tilt * (3/2) + osc) n ∧
      mapStripCanvas tilt osc n = mapColumnSpec (max (-1) (min 1 (tilt + osc))) n := by
  have hn1 : 1 ≤ n := le_trans (by norm_num) hn
  have hnZ : (0 : ℤ) ≤ (n : ℤ) - 1 := by
    have : (1 : ℤ) ≤ (n : ℤ) := by exact_mod_cast hn1
    omega
  constructor
  · apply stripSampleEqOfFields
    · rw [mapStripShader_idx1, mapColumnSpec_idx1]
      have : (tilt * (3/2) + osc + 1) * (1/2) * ((n : ℚ) - 1) =
          stripSelectorShader tilt osc n := rfl
      rw [this]; omega
    · rw [mapStripShader_idx2, mapColumnSpec_idx2]
      have : (tilt * (3/2) + osc + 1) * (1/2) * ((n : ℚ) - 1) =
          stripSelectorShader tilt osc n := rfl
      rw [this]; omega
    · rw [mapStripShader_weight, mapColumnSpec_weight]; rfl
  · obtain ⟨hs0, hs1⟩ := selectorCanvas_bounds tilt osc n hn1
    obtain ⟨hf0, hf1⟩ := floor_selector_range _ n hs0 hs1
    apply stripSampleEqOfFields
    · rw [mapStripCanvas_idx1, mapColumnSpec_idx1]; rfl
    · rw [mapStripCanvas_idx2, mapColumnSpec_idx2]; rfl
    · rw [mapStripCanvas_weight, mapColumnSpec_weight, mapStripCanvas_idx1]
      have : max 0 (min ⌊stripSelectorCanvas tilt osc n⌋ ((n : ℤ) - 1)) =
          ⌊stripSelectorCanvas tilt osc n⌋ := by omega
      rw [this]; rfl

/-- Witness for C2 at tilt = 3/4, osc = 1/20, n = 5. -/
theorem mapStrip_eq_mapColumnSpec_witness :
    2 ≤ 5 ∧
    (mapStripShader (3/4) (1/20) 5 = mapColumnSpec ((3/4) * (3/2) + 1/20) 5 ∧
      mapStripCanvas (3/4) (1/20) 5 = mapColumnSpec (max (-1) (min 1 (3/4 + 1/20))) 5) :=
  ⟨by norm_num, mapStrip_eq_mapColumnSpec (3/4) (1/20) 5 (by norm_num)⟩

/-- Embeds the synthetic tilt of `generateGif` (`GifGenerator.vue`, lines
204–213): `normalizedTime = i / (totalFrames - 1)`;
`tiltValue = -0.9 + normalizedTime * 2 * 1.8` when `normalizedTime <= 0.5`,
else `0.9 - (normalizedTime - 0.5) * 2 * 1.8`. -/
def bakerTilt (totalFrames i : ℕ) : ℚ :=
  let normalizedTime : ℚ := (i : ℚ) / ((totalFrames : ℚ) - 1)
  if normalizedTime ≤ 1/2 then -(9/10) + normalizedTime * 2 * (18/10)
  else 9/10 - (normalizedTime - 1/2) * 2 * (18/10)

/-- Embeds the per-frame delay of `generateGif` (lines 191–194):
`Math.max(100, (gifDuration * 1000) / totalFrames)` — minimum 100 ms. -/
def frameDelay (gifDuration : ℚ) (totalFrames : ℕ) : ℚ :=
  max 100 (gifDuration * 1000 / (totalFrames : ℚ))

/-- One frame handed to the GIF encoder: the synthetic tilt it was rendered
at and the delay passed to `gif.addFrame`. -/
structure GifFrame where
  tilt : ℚ
  delay : ℚ
deriving DecidableEq, Repr

/-- The frame-generation loop of `generateGif` (lines 197–229): for
`i = 0 .. totalFrames-1`, render at `bakerTilt` and add the frame with the
fixed `frameDelay`. -/
def generateGifFrames (totalFrames : ℕ) (gifDuration : ℚ) : List GifFrame :=
  (List.range totalFrames).map
    (fun i => ⟨bakerTilt totalFrames i, frameDelay gifDuration totalFrames⟩)

/-- The outcomes `generateGif` can make visible to its caller or user: the
`gifGenerated` emit on success, and the alert messages of the timeout,
abort and catch handlers. -/
inductive BakeSignal where
  | gifGenerated
  | timeoutAlert
  | abortAlert
  | errorAlert
deriving DecidableEq, Repr

/-- Observable result of one `generateGif` invocation: the frames added to
the encoder and the signals raised. -/
structure BakeResult where
  framesAdded : List GifFrame
  signals : List BakeSignal
deriving DecidableEq, Repr

/-- Embeds `generateGif` (`GifGenerator.vue`, lines 91–266) on its
synchronous success path.  The guard at line 92,
`if (props.images.length === 0) return;`, exits before any state change,
frame allocation or signal; otherwise all frames are generated and the
encoder finishes with the `gifGenerated` emit. -/
def generateGif (images : List String) (totalFrames : ℕ) (gifDuration : ℚ) :
    BakeResult :=
  if images.length = 0 then ⟨[], []⟩
  else ⟨generateGifFrames totalFrames gifDuration, [BakeSignal.gifGenerated]⟩

/-- Modelled from the spec's words (section 4.4, synthetic tilt generator):
the claimed formula `tilt = -A + t*2*A` for `t <= 0.5` and
`A - (t - 0.5)*2*A` for `t > 0.5`. -/
def specTiltClaimed (A t : ℚ) : ℚ :=
  if t ≤ 1/2 then -A + t * 2 * A else A - (t - 1/2) * 2 * A

/-- The claimed formula amended: each half-cycle must traverse the full
`2A` span, so the slope factor is `2*(2A)`, not `2*A`:
`tilt = -A + t*2*(2A)` for `t <= 0.5`, `A - (t - 0.5)*2*(2A)` for
`t > 0.5`. -/
def specTiltAmended (A t : ℚ) : ℚ :=
  if t ≤ 1/2 then -A + t * 2 * (2 * A) else A - (t - 1/2) * 2 * (2 * A)

/-- C3 counterexample: at frameCount 3 (frames at t = 0, 1/2, 1) no
amplitude 0 < A ≤ 1 makes the claimed formula match the baker's
sequence: the baker's middle frame has tilt 9/10 while the claimed
formula gives `-A + (1/2)*2*A = 0` there. -/
theorem bakerTilt_claimed_formula_false :
    ¬ ∃ A : ℚ, 0 < A ∧ A ≤ 1 ∧
      ∀ i, i < 3 → bakerTilt 3 i = specTiltClaimed A ((i : ℚ) / ((3 : ℚ) - 1)) := by
  rintro ⟨A, hA0, hA1, h⟩
  have h1 := h 1 (by norm_num)
  norm_num [bakerTilt, specTiltClaimed] at h1

/-- C3 (amended): for every frameCount F ≥ 2, the baker's synthetic tilt
over frames i = 0..F-1 with t = i/(F-1) equals the triangle wave
`-A + t*2*(2A)` for `t ≤ 1/2`, `A - (t-1/2)*2*(2A)` for `t > 1/2`, with
amplitude A = 9/10 (< 1): it sweeps from -9/10 at the first frame up to
9/10 at mid-sequence (whenever F-1 is even, the frame at (F-1)/2) and
back to -9/10 at the last frame. -/
theorem bakerTilt_eq_triangle_wave (F : ℕ) (hF : 2 ≤ F) :
    (∀ i, i < F →
        bakerTilt F i = specTiltAmended (9/10) ((i : ℚ) / ((F : ℚ) - 1))) ∧
    bakerTilt F 0 = -(9/10) ∧
    bakerTilt F (F - 1) = -(9/10) ∧
    (∀ k, F - 1 = 2 * k → bakerTilt F k = 9/10) := by
  have hF1 : (1 : ℚ) ≤ (F : ℚ) - 1 := by
    have : (2 : ℚ) ≤ (F : ℚ) := by exact_mod_cast hF
    linarith
  have hFne : ((F : ℚ) - 1) ≠ 0 := by linarith
  refine ⟨?_, ?_, ?_, ?_⟩
  · intro i _
    simp only [bakerTilt, specTiltAmended]
    split_ifs with h <;> ring
  · norm_num [bakerTilt]
  · have hcast : ((F - 1 : ℕ) : ℚ) = (F : ℚ) - 1 := by
      have : 1 ≤ F := le_trans (by norm_num) hF
      push_cast [this]
      ring
    unfold bakerTilt
    rw [hcast, div_self hFne]
    norm_num
  · intro k hk
    have hk1 : 1 ≤ k := by
      rcases Nat.eq_zero_or_pos k with h0 | h1
      · exfalso; omega
      · exact h1
    have hcast : ((F : ℚ) - 1) = 2 * (k : ℚ) := by
      have h2 : F - 1 = 2 * k := hk
      have hF1' : 1 ≤ F := le_trans (by norm_num) hF
      have : ((F - 1 : ℕ) : ℚ) = ((2 * k : ℕ) : ℚ) := by rw [h2]
      push_cast [hF1'] at this
      linarith
    have hkne : (k : ℚ) ≠ 0 := by
      have : (1 : ℚ) ≤ (k : ℚ) := by exact_mod_cast hk1
      linarith
    unfold bakerTilt
    rw [hcast]
    have : (k : ℚ) / (2 * (k : ℚ)) = 1/2 := by
      field_simp
      ring
    rw [this]
    norm_num

/-- Witness for the amended C3 at F = 5. -/
theorem bakerTilt_eq_triangle_wave_witness :
    2 ≤ 5 ∧
    ((∀ i, i < 5 →
        bakerTilt 5 i = specTiltAmended (9/10) ((i : ℚ) / ((5 : ℚ) - 1))) ∧
     bakerTilt 5 0 = -(9/10) ∧
     bakerTilt 5 (5 - 1) = -(9/10) ∧
     (∀ k, 5 - 1 = 2 * k → bakerTilt 5 k = 9/10)) :=
  ⟨by norm_num, bakerTilt_eq_triangle_wave 5 (by norm_num)⟩

/-- C4: a bake with frameCount F ≥ 1, duration d and a non-empty image set
adds exactly F frames to the encoder, in generation order i = 0..F-1
(frame i rendered at `bakerTilt F i`), and every frame carries the same
delay `max(100, d*1000/F)` milliseconds, 100 ms being the baker's fixed
minimum delay. -/
theorem generateGif_frame_count_and_delay (images : List String) (F : ℕ)
    (d : ℚ) (himg : images ≠ []) (hF : 1 ≤ F) :
    (generateGif images F d).framesAdded.length = F ∧
    ∀ i, i < F →
      ((generateGif images F d).framesAdded)[i]? =
        some ⟨bakerTilt F i, max 100 (d * 1000 / (F : ℚ))⟩ := by
  have hne : ¬ images.length = 0 := by
    simpa [List.length_eq_zero] using himg
  unfold generateGif
  rw [if_neg hne]
  constructor
  · simp [generateGifFrames]
  · intro i hi
    simp [generateGifFrames, List.getElem?_map, List.getElem?_range, hi,
      frameDelay]

/-- Witness for C4: one image, F = 4, d = 3 s; delay max(100, 750) = 750. -/
theorem generateGif_frame_count_and_delay_witness :
    (("a" :: []) ≠ ([] : List String) ∧ 1 ≤ 4) ∧
    ((generateGif ("a" :: []) 4 3).framesAdded.length = 4 ∧
     ∀ i, i < 4 →
       ((generateGif ("a" :: []) 4 3).framesAdded)[i]? =
         some ⟨bakerTilt 4 i, max 100 ((3 : ℚ) * 1000 / (4 : ℚ))⟩) :=
  ⟨⟨by simp, by norm_num⟩,
   generateGif_frame_count_and_delay ("a" :: []) 4 3 (by simp) (by norm_num)⟩

/-- C5 counterexample: a bake invoked with zero images allocates no frames
— but also raises no signal at all: `generateGif` begins with
`if (props.images.length === 0) return;`, a silent early return, so no
PreconditionFailure-like outcome distinguishable by the caller exists,
contradicting the claim that one is signalled. -/
theorem generateGif_zero_images_silent :
    (generateGif [] 20 (5/2)).framesAdded = [] ∧
    (generateGif [] 20 (5/2)).signals = [] :=
  ⟨rfl, rfl⟩

/-- C5 (amended): a bake invoked with zero images does not start — no frame
buffers are allocated and no rendering work begins — but no failure is
signalled either: the zero-image guard is a silent early return,
indistinguishable to the caller from never invoking the bake. -/
theorem generateGif_zero_images_noop (F : ℕ) (d : ℚ) :
    generateGif [] F d = ⟨[], []⟩ := rfl

/-- A color in the `hsl(hue, saturation%, lightness%)` form used by the
fallback fills of `preloadImages`. -/
structure HslColor where
  hue : ℚ
  sat : ℚ
  light : ℚ
deriving DecidableEq, Repr

/-- An image as the baker's cache sees it after preloading: either the
successfully decoded source, or a flat color swatch painted on a canvas. -/
inductive LoadedImage where
  | decoded (src : String)
  | swatch (width height : ℕ) (color : HslColor)
deriving DecidableEq, Repr

/-- Embeds the `onerror` branch of `preloadImages` (`GifGenerator.vue`,
lines 53–66): a 240×320 canvas filled with
`hsl(${Math.random() * 360}, 70%, 50%)`.  `rand` is the value the run
draws from `Math.random()`, in [0,1).  The failing image's position in the
set does not enter the computation. -/
def onErrorFallback (rand : ℚ) : LoadedImage :=
  LoadedImage.swatch 240 320 ⟨rand * 360, 70, 50⟩

/-- Embeds the catch-all fallback of `preloadImages` (lines 76–87), used
when the whole preload throws: position `index` gets a 240×320 canvas
filled with `hsl(${index * 60}, 70%, 50%)`. -/
def catchFallback (index : ℕ) : LoadedImage :=
  LoadedImage.swatch 240 320 ⟨(index : ℚ) * 60, 70, 50⟩

/-- One image's preload outcome: the decoded source when decoding succeeds
(`decodeOk`), otherwise the `onerror` fallback built from that run's
`Math.random()` draw. -/
def preloadImage (decodeOk : Bool) (src : String) (rand : ℚ) : LoadedImage :=
  if decodeOk then LoadedImage.decoded src else onErrorFallback rand

/-- C6 counterexample: the same image failing to decode at the same
position in two runs whose `Math.random()` draws differ (0 versus 1/2)
yields different placeholder pixel content (hue 0 versus hue 180), so the
substituted placeholder is not a function of the image's position alone
and is not deterministic across runs. -/
theorem onErrorFallback_not_position_determined :
    preloadImage false "img" 0 ≠ preloadImage false "img" (1/2) := by
  simp only [preloadImage, if_neg Bool.false_ne_true, onErrorFallback, ne_eq,
    LoadedImage.swatch.injEq, HslColor.mk.injEq]
  norm_num

/-- C6 (amended): the decode-failure placeholder is a flat 240×320 color
swatch whose hue is the run's `Math.random()` draw scaled to [0,360) —
it is determined by (and injective in) that draw and independent of the
image's position; only the catch-all whole-set fallback derives its hue
deterministically from the position, as 60°·index. -/
theorem onErrorFallback_determined_by_draw :
    (∀ r : ℚ, ∀ src : String,
        preloadImage false src r = LoadedImage.swatch 240 320 ⟨r * 360, 70, 50⟩) ∧
    (∀ r r' : ℚ, onErrorFallback r = onErrorFallback r' ↔ r = r') ∧
    (∀ i : ℕ, catchFallback i = LoadedImage.swatch 240 320 ⟨(i : ℚ) * 60, 70, 50⟩) := by
  refine ⟨fun r src => rfl, fun r r' => ?_, fun i => rfl⟩
  constructor
  · intro h
    simp only [onErrorFallback, LoadedImage.swatch.injEq, HslColor.mk.injEq,
      and_true, true_and] at h
    exact mul_right_cancel₀ (by norm_num) h
  · rintro rfl; rfl

/-- `TILT_SMOOTHING_SAMPLES` (`StartScreen.vue`, line 200). -/
def TILT_SMOOTHING_SAMPLES : ℕ := 3

/-- Embeds `smoothTilt` (`StartScreen.vue`, lines 350–359) with the mutable
`tiltBuffer` ref made explicit state: push the new sample at the end,
shift the oldest sample off the front when the buffer exceeds
`TILT_SMOOTHING_SAMPLES`, and return the new buffer together with the
average `sum / length` that is fed to the tilt uniform. -/
def smoothTilt (tiltBuffer : List ℚ) (newTilt : ℚ) : List ℚ × ℚ :=
  let pushed := tiltBuffer ++ [newTilt]
  let buf := if TILT_SMOOTHING_SAMPLES < pushed.length then pushed.tail else pushed
  (buf, buf.sum / (buf.length : ℚ))

theorem list_sum_le_of_forall_le (l : List ℚ) (B : ℚ) (h : ∀ x ∈ l, x ≤ B) :
    l.sum ≤ (l.length : ℚ) * B := by
  induction l with
  | nil => simp
  | cons a t ih =>
      have ha : a ≤ B := h a (by simp)
      have ht := ih (fun x hx => h x (by simp [hx]))
      simp only [List.sum_cons, List.length_cons]
      push_cast
      linarith

theorem list_le_sum_of_forall_le (l : List ℚ) (A : ℚ) (h : ∀ x ∈ l, A ≤ x) :
    (l.length : ℚ) * A ≤ l.sum := by
  induction l with
  | nil => simp
  | cons a t ih =>
      have ha : A ≤ a := h a (by simp)
      have ht := ih (fun x hx => h x (by simp [hx]))
      simp only [List.sum_cons, List.length_cons]
      push_cast
      linarith

/-- C8: one smoothing step from any buffer within the window bound keeps the
trailing buffer at no more than `TILT_SMOOTHING_SAMPLES` = 3 samples (and
at least one), and the value fed to the tilt uniform equals the arithmetic
mean of the samples then in the buffer — hence it lies between every lower
bound and every upper bound of those samples. -/
theorem smoothTilt_window_and_mean (tiltBuffer : List ℚ) (newTilt : ℚ)
    (hlen : tiltBuffer.length ≤ TILT_SMOOTHING_SAMPLES) :
    (smoothTilt tiltBuffer newTilt).1.length ≤ TILT_SMOOTHING_SAMPLES ∧
    1 ≤ (smoothTilt tiltBuffer newTilt).1.length ∧
    (smoothTilt tiltBuffer newTilt).2 =
      (smoothTilt tiltBuffer newTilt).1.sum /
        (((smoothTilt tiltBuffer newTilt).1.length : ℕ) : ℚ) ∧
    (∀ B : ℚ, (∀ x ∈ (smoothTilt tiltBuffer newTilt).1, x ≤ B) →
      (smoothTilt tiltBuffer newTilt).2 ≤ B) ∧
    (∀ A : ℚ, (∀ x ∈ (smoothTilt tiltBuffer newTilt).1, A ≤ x) →
      A ≤ (smoothTilt tiltBuffer newTilt).2) := by
  have hbuf : (smoothTilt tiltBuffer newTilt).1.length ≤ TILT_SMOOTHING_SAMPLES ∧
      1 ≤ (smoothTilt tiltBuffer newTilt).1.length := by
    simp only [smoothTilt, TILT_SMOOTHING_SAMPLES] at hlen ⊢
    split_ifs with h <;> simp [List.length_append] at h ⊢ <;> omega
  have hval : (smoothTilt tiltBuffer newTilt).2 =
      (smoothTilt tiltBuffer newTilt).1.sum /
        (((smoothTilt tiltBuffer newTilt).1.length : ℕ) : ℚ) := rfl
  have hpos : (0 : ℚ) < (((smoothTilt tiltBuffer newTilt).1.length : ℕ) : ℚ) := by
    exact_mod_cast hbuf.2
  refine ⟨hbuf.1, hbuf.2, hval, ?_, ?_⟩
  · intro B hB
    rw [hval, div_le_iff hpos]
    calc (smoothTilt tiltBuffer newTilt).1.sum
        ≤ ((smoothTilt tiltBuffer newTilt).1.length : ℚ) * B :=
          list_sum_le_of_forall_le _ B hB
      _ = B * ((smoothTilt tiltBuffer newTilt).1.length : ℚ) := by ring
  · intro A hA
    rw [hval, le_div_iff hpos]
    calc A * ((smoothTilt tiltBuffer newTilt).1.length : ℚ)
        = ((smoothTilt tiltBuffer newTilt).1.length : ℚ) * A := by ring
      _ ≤ (smoothTilt tiltBuffer newTilt).1.sum :=
          list_le_sum_of_forall_le _ A hA

/-- Witness for C8: buffer [1/4, 3/4, 1/2] (already full) receiving sample
1; the mean is computed over the shifted buffer. -/
theorem smoothTilt_window_and_mean_witness :
    ((1/4 : ℚ) :: (3/4 : ℚ) :: (1/2 : ℚ) :: []).length ≤ TILT_SMOOTHING_SAMPLES ∧
    ((smoothTilt ((1/4 : ℚ) :: (3/4 : ℚ) :: (1/2 : ℚ) :: []) 1).1.length ≤
        TILT_SMOOTHING_SAMPLES ∧
      1 ≤ (smoothTilt ((1/4 : ℚ) :: (3/4 : ℚ) :: (1/2 : ℚ) :: []) 1).1.length ∧
      (smoothTilt ((1/4 : ℚ) :: (3/4 : ℚ) :: (1/2 : ℚ) :: []) 1).2 =
        (smoothTilt ((1/4 : ℚ) :: (3/4 : ℚ) :: (1/2 : ℚ) :: []) 1).1.sum /
          (((smoothTilt ((1/4 : ℚ) :: (3/4 : ℚ) :: (1/2 : ℚ) :: []) 1).1.length : ℕ) : ℚ) ∧
      (∀ B : ℚ,
        (∀ x ∈ (smoothTilt ((1/4 : ℚ) :: (3/4 : ℚ) :: (1/2 : ℚ) :: []) 1).1, x ≤ B) →
          (smoothTilt ((1/4 : ℚ) :: (3/4 : ℚ) :: (1/2 : ℚ) :: []) 1).2 ≤ B) ∧
      (∀ A : ℚ,
        (∀ x ∈ (smoothTilt ((1/4 : ℚ) :: (3/4 : ℚ) :: (1/2 : ℚ) :: []) 1).1, A ≤ x) →
          A ≤ (smoothTilt ((1/4 : ℚ) :: (3/4 : ℚ) :: (1/2 : ℚ) :: []) 1).2)) :=
  ⟨by simp [TILT_SMOOTHING_SAMPLES],
   smoothTilt_window_and_mean ((1/4 : ℚ) :: (3/4 : ℚ) :: (1/2 : ℚ) :: []) 1
     (by simp [TILT_SMOOTHING_SAMPLES])⟩

/-- Embeds the dimension computation of `resizeImage` (`StartScreen.vue`,
lines 322–334; identically in the unnamed two-image component): starting
from the image's natural `(width, height)`, when `width > height` and
`width > maxSize` the result is `(maxSize, height * maxSize / width)`;
otherwise when `height > maxSize` it is
`(width * maxSize / height, maxSize)`; otherwise the dimensions are kept
unchanged. -/
def resizeDims (width height maxSize : ℚ) : ℚ × ℚ :=
  if height < width then
    if maxSize < width then (maxSize, height * maxSize / width)
    else (width, height)
  else
    if maxSize < height then (width * maxSize / height, maxSize)
    else (width, height)

/-- C9: for every input image of positive width w and height h, the
normalizer's resize produces dimensions with the larger one at most
`maxSize`, the width:height ratio preserved, and the image kept exactly
as-is (never scaled up) whenever it already fits. -/
theorem resizeDims_bounds_ratio_noupscale (w h maxSize : ℚ)
    (hw : 0 < w) (hh : 0 < h) (hm : 0 < maxSize) :
    (resizeDims w h maxSize).1 ≤ maxSize ∧
    (resizeDims w h maxSize).2 ≤ maxSize ∧
    (resizeDims w h maxSize).1 / (resizeDims w h maxSize).2 = w / h ∧
    (w ≤ maxSize → h ≤ maxSize → resizeDims w h maxSize = (w, h)) := by
  unfold resizeDims
  split_ifs with h1 h2 h3
  · -- h < w and maxSize < w: scale by width
    refine ⟨le_refl _, ?_, ?_, ?_⟩
    · simp only
      rw [div_le_iff hw]
      nlinarith
    · simp only
      field_simp
      ring
    · intro hwm _
      exact absurd hwm (not_le.mpr h2)
  · -- h < w ≤ maxSize: unchanged
    refine ⟨not_lt.mp h2, le_trans (le_of_lt h1) (not_lt.mp h2), rfl, fun _ _ => rfl⟩
  · -- w ≤ h and maxSize < h: scale by height
    refine ⟨?_, le_refl _, ?_, ?_⟩
    · simp only
      rw [div_le_iff hh]
      nlinarith [not_lt.mp h1]
    · simp only
      field_simp
      ring
    · intro _ hhm
      exact absurd hhm (not_le.mpr h3)
  · -- w ≤ h ≤ maxSize: unchanged
    exact ⟨le_trans (not_lt.mp h1) (not_lt.mp h3), not_lt.mp h3, rfl, fun _ _ => rfl⟩

/-- Witness for C9 at w = 800, h = 600, maxSize = 512: the result is
(512, 384), the larger dimension capped and the 4:3 ratio kept. -/
theorem resizeDims_bounds_ratio_noupscale_witness :
    ((0 : ℚ) < 800 ∧ (0 : ℚ) < 600 ∧ (0 : ℚ) < 512) ∧
    ((resizeDims 800 600 512).1 ≤ 512 ∧
     (resizeDims 800 600 512).2 ≤ 512 ∧
     (resizeDims 800 600 512).1 / (resizeDims 800 600 512).2 = (800 : ℚ) / 600 ∧
     ((800 : ℚ) ≤ 512 → (600 : ℚ) ≤ 512 → resizeDims 800 600 512 = (800, 600))) :=
  ⟨by norm_num,
   resizeDims_bounds_ratio_noupscale 800 600 512 (by norm_num) (by norm_num)
     (by norm_num)⟩

/-- Embeds the padding loop of `loadTextures` (`StartScreen.vue`, lines
412–415): `while (validTextures.length < 5)
validTextures.push(validTextures[validTextures.length - 1])` — repeatedly
append the current last element until the array has 5 entries.  (On the
empty list the source loop is unreachable: `loadTextures` returns earlier
when no texture loaded; the model returns the list unchanged there.) -/
def padTextures {τ : Type} (ts : List τ) : List τ :=
  if h5 : 5 ≤ ts.length then ts
  else
    match ts.getLast? with
    | none => ts
    | some x => padTextures (ts ++ [x])
termination_by 5 - ts.length
decreasing_by
  simp only [List.length_append, List.length_cons, List.length_nil]
  omega

theorem padTextures_spec {τ : Type} (fuel : ℕ) :
    ∀ ts : List τ, 5 - ts.length ≤ fuel → ts ≠ [] → ts.length ≤ 5 →
      (padTextures ts).length = 5 ∧ ∀ y ∈ padTextures ts, y ∈ ts := by
  induction fuel with
  | zero =>
      intro ts hk hne hlen
      have h5 : 5 ≤ ts.length := by omega
      rw [padTextures, dif_pos h5]
      exact ⟨le_antisymm hlen h5, fun y hy => hy⟩
  | succ k ih =>
      intro ts hk hne hlen
      by_cases h5 : 5 ≤ ts.length
      · rw [padTextures, dif_pos h5]
        exact ⟨le_antisymm hlen h5, fun y hy => hy⟩
      · cases hx : ts.getLast? with
        | none => exact absurd (List.getLast?_eq_none_iff.mp hx) hne
        | some x =>
        rw [padTextures, dif_neg h5, hx]
        have hxmem : x ∈ ts := List.mem_of_mem_getLast? (by simp [hx])
        have hrec := ih (ts ++ [x]) (by simp; omega) (by simp)
          (by simp; omega)
        refine ⟨hrec.1, fun y hy => ?_⟩
        have := hrec.2 y hy
        rcases List.mem_append.mp this with h | h
        · exact h
        · simpa using (List.mem_singleton.mp h) ▸ hxmem

/-- C10: when the interactive compositor has loaded k textures with
1 ≤ k ≤ 5, the padding loop hands the shader an array of exactly 5
entries, each of which is one of the successfully loaded textures — so
every slot 0..4 that a clamped image index can select references a loaded
texture. -/
theorem padTextures_pads_to_five {τ : Type} (ts : List τ)
    (h1 : ts ≠ []) (h5 : ts.length ≤ 5) :
    (padTextures ts).length = 5 ∧ ∀ y ∈ padTextures ts, y ∈ ts :=
  padTextures_spec (5 - ts.length) ts le_rfl h1 h5

/-- Witness for C10 with two loaded textures (ids 0 and 1). -/
theorem padTextures_pads_to_five_witness :
    (((0 : ℕ) :: 1 :: []) ≠ [] ∧ ((0 : ℕ) :: 1 :: []).length ≤ 5) ∧
    ((padTextures ((0 : ℕ) :: 1 :: [])).length = 5 ∧
      ∀ y ∈ padTextures ((0 : ℕ) :: 1 :: []), y ∈ ((0 : ℕ) :: 1 :: [])) :=
  ⟨⟨by simp, by simp⟩, padTextures_pads_to_five ((0 : ℕ) :: 1 :: []) (by simp) (by simp)⟩

end Lenticular
